import Mathlib

/-!
Verification development for the corpusama harvest/annotation pipeline.

The embedding follows the repository sources:
- datamgr/database/database.py (class Database, keyed storage),
- corpusama/corpus/vertical.py (vertical formatting and staleness),
- corpusama/source/reliefweb.py (class ReliefWeb, the pagination crawler).
Parts of the repository that the sources call but that are not included
(the .sql schema files, corpusama/util/convert.py, corpusama/util/decorator.py,
corpusama/corpus/stanza.py, corpusama/source/call.py) are modelled from the
spec where a definition needs them; each such definition says so in its
doc comment.
-/

namespace Corpusama

/-! ## Definitions

### Keyed replace-on-conflict storage

SQLite `INSERT OR REPLACE` into a table whose schema declares a primary key:
a new row removes any existing row sharing its key.  `Database.insert` runs
this per record via `executemany` (database.py 77-80). -/

/-- One `INSERT OR REPLACE` of row `r` into table `tbl` keyed by `key`:
any existing row with the same key is replaced by the new row. -/
def upsertOne {Row K : Type} [DecidableEq K] (key : Row → K) (tbl : List Row) (r : Row) :
    List Row :=
  tbl.filter (fun t => key t ≠ key r) ++ [r]

/-- `executemany` of `INSERT OR REPLACE`: the batch rows are applied in order. -/
def upsertBatch {Row K : Type} [DecidableEq K] (key : Row → K) (tbl : List Row)
    (rs : List Row) : List Row :=
  rs.foldl (upsertOne key) tbl

/-- The subsequence of `rs` keeping, for each key, only the last row with
that key. -/
def dedupLast {Row K : Type} [DecidableEq K] (key : Row → K) : List Row → List Row
  | [] => []
  | r :: rs => if key r ∈ rs.map key then dedupLast key rs else r :: dedupLast key rs

/-! ### Database.insert (datamgr/database/database.py, lines 65-82)

`insert(df, table)` standardizes the dataframe's datatypes
(`df.astype(str)` then `convert.nan_to_none(df)`), projects it to the
columns registered for the table (`df[self.tables[table]]`, the registry
built by `get_tables`), and runs `INSERT OR REPLACE` per record. -/

/-- A dataframe cell value before conversion: a string, an integer, or a
nan-like missing value.  The constructors stand for the Python datatypes a
response-shaped dataframe can hold. -/
inductive Val where
  | vstr (s : String)
  | vint (n : Int)
  | vnan
deriving DecidableEq

/-- `df.astype(str)` cell-wise: every value is rendered as its string form;
a nan-like cell renders as the string "nan". -/
def astype_str : Val → String
  | .vstr s => s
  | .vint n => toString n
  | .vnan => "nan"

/-- Modelled from the spec: `convert.nan_to_none` (datamgr/util/convert.py is
not in src/), per the docstring of `Database.insert`: "Converts nan-like
values to None, then converts all values to str."  Running after
`astype(str)`, a nan-like cell is the string "nan" and becomes None (SQL
NULL); every other cell stays a string. -/
def nan_to_none (s : String) : Option String :=
  if s = "nan" then none else some s

/-- The conversion `Database.insert` applies to every cell before binding it
into the SQL statement: stringify, then nan-like to NULL. -/
def prepare_cell (v : Val) : Option String := nan_to_none (astype_str v)

/-- `df[self.tables[table]]`: project a dataframe row (an association list of
column name to value) to the table's registered columns, in registry order,
converting each cell.  Columns of the row that are not in the registry do
not appear in the result. -/
def project_row (registry : List String) (row : List (String × Val)) :
    List (Option String) :=
  registry.map (fun c => prepare_cell ((row.lookup c).getD .vnan))

/-- The conflict key of a stored row: the cell at the primary-key column's
position in the registry.  Modelled from the spec: the primary keys are
declared in the repository's .sql schema files (not in src/); per the spec
each table is keyed (the raw-records table by `id`, the call-log table by
the parameter hash). -/
def row_key (idx : Nat) (r : List (Option String)) : Option String :=
  r.getD idx none

/-- `Database.insert` (database.py 65-82): convert cells, project to the
table's registered columns, and `INSERT OR REPLACE` each record in order,
keyed by the primary-key column at position `idx` of the registry. -/
def Database.insert (registry : List String) (idx : Nat)
    (tbl : List (List (Option String))) (df : List (List (String × Val))) :
    List (List (Option String)) :=
  upsertBatch (row_key idx) tbl (df.map (project_row registry))

/-! ### Vertical formatting (corpusama/corpus/vertical.py) -/

/-- A stanza-tagged word: surface text, xpos tag, and the optional lemma
(`lemma_` holds `w.lemma`, which stanza may fail to produce). -/
structure Word where
  text : String
  xpos : String
  lemma_ : Option String
deriving DecidableEq

/-- Modelled from the spec: `stanza.fix_lemma` (corpusama/corpus/stanza.py is
not in src/) — when the tagger produced no lemma for a word, the lemma falls
back to the word's surface text (the omission is logged, which has no effect
on the produced line). -/
def fix_lemma (w : Word) : String := (w.lemma_).getD w.text

/-- One vertical line for a word (vertical.py 28-31, `make_lines`):
tab-separated surface text, xpos tag, and lemma immediately followed by the
lempos suffix looked up from the tagset, terminated by a newline. -/
def make_line (tagset : String → String) (w : Word) : String :=
  w.text ++ "\t" ++ w.xpos ++ "\t" ++ fix_lemma w ++ tagset w.xpos ++ "\n"

/-- vertical.py `make_lines`: one line per word of the sentence. -/
def make_lines (tagset : String → String) (sent : List Word) : List String :=
  sent.map (make_line tagset)

/-- vertical.py 33-41, `make_sentence`: the sentence's lines wrapped in the
start marker and end marker lines, joined into one string.  (The
`lemmatize_fail` call only logs and does not change the text.) -/
def make_sentence (tagset : String → String) (sent : List Word) : String :=
  String.join (["<s>\n"] ++ make_lines tagset sent ++ ["</s>\n"])

/-- A row of the dataframe written to the _vert table: record id and the
vertical content string produced for it. -/
structure VertRow where
  id : String
  vert : String
deriving DecidableEq

/-- vertical.py 114-122, `drop_empty_vert`: rows whose vertical content has
zero length are logged with a warning (first component: the warned ids) and
removed; the second component is `df.query("vert.str.len() > 0")`. -/
def drop_empty_vert (df : List VertRow) : List String × List VertRow :=
  ((df.filter (fun r => r.vert.length = 0)).map (fun r => r.id),
   df.filter (fun r => r.vert.length > 0))

/-- vertical.py 94-105, `batch_run`, after the tagging and conversion steps:
drop the empty rows, then insert the remaining rows into _vert
(replace-on-conflict by id). -/
def batch_run_insert (tbl : List VertRow) (df : List VertRow) : List VertRow :=
  upsertBatch (fun r => r.id) tbl (drop_empty_vert df).2

/-- A timestamp; pd.Timestamp values are modelled as integers under their
linear order. -/
abbrev Time := Int

/-- vertical.py 125-141, `outdated_vert`: LEFT JOIN the _vert rows
(id, creation time) with the _raw date.changed values, and return the ids
whose raw timestamp is strictly greater than the vertical file's creation
time.  A _vert id with no _raw row yields NaT on the raw side, which
compares as not greater. -/
def outdated_vert (rawT vertT : List (String × Time)) : List String :=
  (vertT.filter (fun a => match rawT.lookup a.1 with
    | some rT => decide (a.2 < rT)
    | none => false)).map (fun a => a.1)

/-- vertical.py 75-78, the staleness selection of `make_vertical.batch`:
`exists` is the list of _vert ids after removing the outdated ones; a
record is processed only if its id is not in `exists`. -/
def exists_up_to_date (rawT vertT : List (String × Time)) : List String :=
  (vertT.map (fun a => a.1)).filter (fun i => i ∉ outdated_vert rawT vertT)

/-- A record id is due for (re)annotation iff the batch filter keeps it:
it is not among the up-to-date existing ids. -/
def due (rawT vertT : List (String × Time)) (id : String) : Prop :=
  id ∉ exists_up_to_date rawT vertT

/-! ### The crawler (corpusama/source/reliefweb.py, class ReliefWeb)

The `one` while-loop is driven here by the list of API responses still to
come.  The `while_loop` decorator (corpusama/util/decorator.py, not in src/)
catches the UserWarning raised on exhaustion; modelled from the spec,
EmptyResultTermination is a terminal state, not an error.  The quota pause
(`Call._enforce_quota` / `_wait`, corpusama/source/call.py, not in src/) is
modelled from the spec's quota policy. -/

/-- A filter condition value: a plain scalar, or the
`{"from": timestamp}` range object built for date.changed. -/
inductive CondValue where
  | scalar (s : String)
  | fromTime (t : Time)
deriving DecidableEq

/-- One condition of the request filter: field name and value. -/
structure Cond where
  field : String
  value : CondValue
deriving DecidableEq

/-- The request filter: operator and conditions. -/
structure Filter where
  operator : String
  conditions : List Cond
deriving DecidableEq

/-- The request parameters (spec section 6): offset, sort, filter. -/
structure Params where
  offset : Int
  sort : List String
  filter : Filter
deriving DecidableEq

/-- One raw record of a response page: its id and its date.changed value. -/
structure RawRec where
  id : String
  changed : Time
deriving DecidableEq

/-- One API response page: the reported result count, the data records, and
the reported total count. -/
structure Page where
  count : Nat
  data : List RawRec
  totalCount : Nat
deriving DecidableEq

/-- A _log table row, keyed by the parameter hash.  The hash (`Call._hash`,
not in src/) is modelled as the parameter object itself, a faithful stand-in
for a deterministic digest of the parameters: identical parameters map to
the same key. -/
structure LogRow where
  api_params_hash : Params
  count : Nat
  total_count : Nat
deriving DecidableEq

/-- The mutable crawl state threaded through `ReliefWeb.one`: the current
parameters (offset lives inside them), the completed-call counter, the last
response's count (`response_json["count"]`), the two database tables, and a
ghost trace of the received pages' counts (mirroring the per-page debug
log). -/
structure CrawlState where
  params : Params
  call_n : Nat
  resp_count : Nat
  raw : List RawRec
  log : List LogRow
  counts : List Nat
deriving DecidableEq

/-- How one crawl run ends. -/
inductive Outcome where
  | limitReached
  | exhausted
  | quotaHalt
  | noResponse
  | error (msg : String)
deriving DecidableEq

/-- Modelled from the spec: the quota wait table lookup.  The bucket is the
one with the greatest threshold at most the current call index; a `none`
wait value means the crawl halts rather than sleeps. -/
def quota_wait (wd : List (Nat × Option Nat)) (n : Nat) : Option Nat :=
  ((wd.filter (fun p => p.1 ≤ n)).foldl
    (fun acc p => if acc.1 ≤ p.1 then p else acc) (0, some 0)).2

/-- The default wait table of `ReliefWeb.__init__`:
thresholds 0, 5, 10, 20 wait 1, 49, 99, 499 seconds, threshold 30 halts. -/
def default_wait : List (Nat × Option Nat) :=
  [(0, some 1), (5, some 49), (10, some 99), (20, some 499), (30, none)]

/-- The offset adjustment of `ReliefWeb._offset` (reliefweb.py 31-38):
before every call except the first, the offset parameter is advanced by the
previous response's reported count. -/
def offsetStep (s : CrawlState) : CrawlState :=
  if s.call_n > 0
  then { s with params := { s.params with
           offset := s.params.offset + (s.resp_count : Int) } }
  else s

/-- The decorated `ReliefWeb.one` loop (reliefweb.py 88-114) in database
mode, driven by the remaining API responses.  Each iteration: stop when the
call counter reaches the limit; halt when the quota table yields no wait;
`_offset` advances the offset (`offsetStep`) and raises on a zero previous
count (caught by the while_loop decorator: exhaustion, not an error);
`_request` consumes the next page; `insert` (reliefweb.py 153-175) upserts
the page's records into _raw keyed by id, but on an empty page raises
before `_insert_log` runs; `_insert_log` (reliefweb.py 125-137) upserts one
log row keyed by the parameter hash; then the call counter advances and
the loop repeats. -/
def runLoop (wd : List (Nat × Option Nat)) (limit : Nat) :
    CrawlState → List Page → CrawlState × Outcome
  | s, pages =>
    if s.call_n ≥ limit then (s, .limitReached)
    else if quota_wait wd s.call_n = none then (s, .quotaHalt)
    else if s.call_n > 0 ∧ s.resp_count = 0 then (offsetStep s, .exhausted)
    else match pages with
      | [] => (offsetStep s, .noResponse)
      | p :: rest =>
        let s2 := { (offsetStep s) with
                    resp_count := p.count,
                    counts := (offsetStep s).counts ++ [p.count] }
        if p.data.isEmpty then (s2, .exhausted)
        else runLoop wd limit
          { s2 with
            raw := upsertBatch (fun r => r.id) s2.raw p.data,
            log := upsertOne (fun l => l.api_params_hash) s2.log
                     ⟨s2.params, p.count, p.totalCount⟩,
            call_n := s2.call_n + 1 } rest

/-- `ReliefWeb.all` (reliefweb.py 40-46): reset the call counter and run the
loop from the current parameters and database state. -/
def allRun (wd : List (Nat × Option Nat)) (limit : Nat) (s : CrawlState)
    (pages : List Page) : CrawlState × Outcome :=
  runLoop wd limit { s with call_n := 0, resp_count := 0, counts := [] } pages

/-- `ReliefWeb._update_filter` (reliefweb.py 68-86): when the stored
date.changed series is non-empty, the parameters are reset to the original
ones with an AND filter whose conditions are the original conditions plus a
date.changed condition starting from the latest stored value; otherwise the
current parameters are left untouched. -/
def update_filter (original current : Params) (vals : List Time) : Params :=
  match vals.max? with
  | some latest =>
      { original with filter :=
          ⟨"AND", original.filter.conditions
            ++ [⟨"date.changed", .fromTime latest⟩]⟩ }
  | none => current

/-- The ValueError message of `ReliefWeb.new` for a bad sort setting. -/
def sort_err_msg : String :=
  "Input parameters must be set to retrieve results sorted by date.changed in ascending order"

/-- `ReliefWeb.new` (reliefweb.py 48-66): set the offset to 0, fail fast with
a ValueError unless the declared sort is ["date.changed:asc"], read the
stored date.changed values from _raw, update the filter, then run
`all(limit)`. -/
def newRun (wd : List (Nat × Option Nat)) (limit : Nat) (original : Params)
    (raw : List RawRec) (log : List LogRow) (pages : List Page) :
    CrawlState × Outcome :=
  let s0 : CrawlState := ⟨{ original with offset := 0 }, 0, 0, raw, log, []⟩
  if original.sort ≠ ["date.changed:asc"] then (s0, .error sort_err_msg)
  else
    allRun wd limit
      { s0 with params := update_filter original s0.params
                            (raw.map (fun r => r.changed)) }
      pages

/-- Modelled from the spec: whether a record satisfies one filter condition.
The spec (section 4.1) reads the date.changed condition as requesting only
records whose changed timestamp is greater than the given value; conditions
on other fields are interpreted by the oracle `other`. -/
def cond_matches (other : Cond → RawRec → Prop) (c : Cond) (r : RawRec) : Prop :=
  match c with
  | ⟨"date.changed", .fromTime t⟩ => r.changed > t
  | c => other c r

/-- Modelled from the spec: an AND filter matches a record iff every
condition matches; any other operator matches iff some condition does. -/
def filter_matches (other : Cond → RawRec → Prop) (f : Filter) (r : RawRec) : Prop :=
  if f.operator = "AND" then ∀ c ∈ f.conditions, cond_matches other c r
  else ∃ c ∈ f.conditions, cond_matches other c r

/-! ## Helper lemmas -/

theorem key_mem_of_mem_dedupLast {Row K : Type} [DecidableEq K] {key : Row → K} :
    ∀ {rs : List Row} {r : Row}, r ∈ dedupLast key rs → key r ∈ rs.map key := by
  intro rs
  induction rs with
  | nil => intro r h; simp [dedupLast] at h
  | cons a l ih =>
    intro r h
    simp only [dedupLast] at h
    by_cases hc : key a ∈ l.map key
    · rw [if_pos hc] at h
      simp only [List.map_cons, List.mem_cons]
      exact Or.inr (ih h)
    · rw [if_neg hc] at h
      simp only [List.map_cons, List.mem_cons]
      rcases List.mem_cons.1 h with h1 | h2
      · exact Or.inl (by rw [h1])
      · exact Or.inr (ih h2)

theorem dedupLast_sublist {Row K : Type} [DecidableEq K] (key : Row → K) :
    ∀ rs : List Row, List.Sublist (dedupLast key rs) rs := by
  intro rs
  induction rs with
  | nil => simp [dedupLast]
  | cons r l ih =>
    simp only [dedupLast]
    split
    · exact ih.cons r
    · exact ih.cons₂ r

theorem key_mem_dedupLast {Row K : Type} [DecidableEq K] {key : Row → K} :
    ∀ {rs : List Row} {k : K}, k ∈ rs.map key → k ∈ (dedupLast key rs).map key := by
  intro rs
  induction rs with
  | nil => intro k h; simp at h
  | cons r l ih =>
    intro k h
    simp only [List.map_cons, List.mem_cons] at h
    simp only [dedupLast]
    by_cases hr : key r ∈ l.map key
    · rw [if_pos hr]
      rcases h with h1 | h2
      · exact ih (h1 ▸ hr)
      · exact ih h2
    · rw [if_neg hr]
      simp only [List.map_cons, List.mem_cons]
      rcases h with h1 | h2
      · exact Or.inl h1
      · exact Or.inr (ih h2)

theorem upsertBatch_eq {Row K : Type} [DecidableEq K] (key : Row → K) :
    ∀ (rs tbl : List Row),
      upsertBatch key tbl rs
        = tbl.filter (fun t => key t ∉ rs.map key) ++ dedupLast key rs := by
  intro rs
  induction rs with
  | nil =>
    intro tbl
    simp [upsertBatch, dedupLast]
  | cons r rs ih =>
    intro tbl
    have h1 : upsertBatch key tbl (r :: rs) = upsertBatch key (upsertOne key tbl r) rs := rfl
    rw [h1, ih]
    unfold upsertOne
    rw [List.filter_append, List.filter_filter]
    have hpt : tbl.filter (fun t => decide (key t ∉ rs.map key) && decide (key t ≠ key r))
        = tbl.filter (fun t => key t ∉ (r :: rs).map key) := by
      apply List.filter_congr
      intro a _
      by_cases h1 : key a = key r <;> by_cases h2 : key a ∈ rs.map key <;>
        simp [h1, h2]
    rw [hpt]
    simp only [dedupLast]
    by_cases hr : key r ∈ rs.map key
    · rw [if_pos hr]
      have he : [r].filter (fun t => key t ∉ rs.map key) = [] := by
        simp [List.filter, hr]
      rw [he, List.append_nil]
    · rw [if_neg hr]
      have he : [r].filter (fun t => key t ∉ rs.map key) = [r] := by
        simp [List.filter, hr]
      rw [he, List.append_assoc]
      rfl

theorem filter_dedupLast_eq_nil {Row K : Type} [DecidableEq K] (key : Row → K)
    (rs : List Row) :
    (dedupLast key rs).filter (fun t => key t ∉ rs.map key) = [] := by
  rw [List.filter_eq_nil_iff]
  intro a ha
  simp only [decide_eq_true_eq, not_not]
  exact key_mem_of_mem_dedupLast ha

theorem upsertBatch_idem {Row K : Type} [DecidableEq K] (key : Row → K)
    (tbl rs : List Row) :
    upsertBatch key (upsertBatch key tbl rs) rs = upsertBatch key tbl rs := by
  rw [upsertBatch_eq, upsertBatch_eq, List.filter_append, filter_dedupLast_eq_nil,
    List.append_nil, List.filter_filter]
  congr 1
  apply List.filter_congr
  intro a _
  rw [Bool.and_self]

theorem nodup_keys_dedupLast {Row K : Type} [DecidableEq K] (key : Row → K) :
    ∀ rs : List Row, ((dedupLast key rs).map key).Nodup := by
  intro rs
  induction rs with
  | nil => simp [dedupLast]
  | cons r l ih =>
    simp only [dedupLast]
    split
    · exact ih
    · rename_i hr
      simp only [List.map_cons, List.nodup_cons]
      refine ⟨fun hmem => hr ?_, ih⟩
      rcases List.mem_map.1 hmem with ⟨a, ha, hk⟩
      have hmem2 := key_mem_of_mem_dedupLast ha
      rwa [hk] at hmem2

theorem upsertBatch_nodup_keys {Row K : Type} [DecidableEq K] (key : Row → K)
    (tbl rs : List Row) (h : (tbl.map key).Nodup) :
    ((upsertBatch key tbl rs).map key).Nodup := by
  rw [upsertBatch_eq, List.map_append]
  apply List.Nodup.append
  · exact List.Nodup.sublist (List.Sublist.map key (List.filter_sublist tbl)) h
  · exact nodup_keys_dedupLast key rs
  · intro x hx hy
    rcases List.mem_map.1 hx with ⟨a, ha, hax⟩
    rcases List.mem_map.1 hy with ⟨b, hb, hbx⟩
    have hbk := key_mem_of_mem_dedupLast hb
    have haf := List.mem_filter.1 ha
    have hnot : key a ∉ rs.map key := by simpa using haf.2
    rw [hbx] at hbk
    rw [← hax] at hbk
    exact hnot hbk

theorem mem_upsertBatch {Row K : Type} [DecidableEq K] (key : Row → K)
    (tbl rs : List Row) {r : Row} (h : r ∈ upsertBatch key tbl rs) :
    r ∈ tbl ∨ r ∈ rs := by
  rw [upsertBatch_eq] at h
  rcases List.mem_append.1 h with h1 | h2
  · exact Or.inl (List.mem_filter.1 h1).1
  · exact Or.inr ((dedupLast_sublist key rs).subset h2)

theorem mem_upsertBatch_of_key {Row K : Type} [DecidableEq K] (key : Row → K)
    (tbl rs : List Row) {r : Row} (h : r ∈ upsertBatch key tbl rs)
    (hk : key r ∈ rs.map key) : r ∈ rs := by
  rw [upsertBatch_eq] at h
  rcases List.mem_append.1 h with h1 | h2
  · exfalso
    have hnot := (List.mem_filter.1 h1).2
    simp only [decide_eq_true_eq] at hnot
    exact hnot hk
  · exact (dedupLast_sublist key rs).subset h2

theorem key_mem_upsertBatch {Row K : Type} [DecidableEq K] (key : Row → K)
    (tbl rs : List Row) {k : K} (hk : k ∈ rs.map key) :
    k ∈ (upsertBatch key tbl rs).map key := by
  rw [upsertBatch_eq, List.map_append]
  exact List.mem_append.2 (Or.inr (key_mem_dedupLast hk))

theorem foldl_insert_nodup (registry : List String) (idx : Nat) :
    ∀ (dfs : List (List (List (String × Val)))) (tbl : List (List (Option String))),
      (tbl.map (row_key idx)).Nodup →
      (((dfs.foldl (fun t d => Database.insert registry idx t d) tbl).map
          (row_key idx)).Nodup) := by
  intro dfs
  induction dfs with
  | nil => intro tbl h; exact h
  | cons d rest ih =>
    intro tbl h
    exact ih (Database.insert registry idx tbl d) (upsertBatch_nodup_keys _ _ _ h)

theorem lookup_eq_none_iff {β : Type} (l : List (String × β)) (a : String) :
    l.lookup a = none ↔ a ∉ l.map (fun p => p.1) := by
  induction l with
  | nil => simp [List.lookup]
  | cons p l ih =>
    obtain ⟨k, v⟩ := p
    by_cases hk : a = k
    · subst hk
      simp [List.lookup]
    · have hbeq : (a == k) = false := beq_eq_false_iff_ne.2 hk
      simp [List.lookup, hbeq, ih, hk]

theorem lookup_mem {β : Type} {l : List (String × β)} {a : String} {b : β}
    (h : l.lookup a = some b) : (a, b) ∈ l := by
  induction l with
  | nil => simp [List.lookup] at h
  | cons p l ih =>
    obtain ⟨k, v⟩ := p
    by_cases hk : a = k
    · subst hk
      simp [List.lookup] at h
      simp [h]
    · have hbeq : (a == k) = false := beq_eq_false_iff_ne.2 hk
      simp only [List.lookup, hbeq] at h
      exact List.mem_cons_of_mem _ (ih h)

theorem mem_lookup_of_nodup {β : Type} {l : List (String × β)} {a : String} {b : β}
    (hn : (l.map (fun p => p.1)).Nodup) (h : (a, b) ∈ l) : l.lookup a = some b := by
  induction l with
  | nil => simp at h
  | cons p l ih =>
    obtain ⟨k, v⟩ := p
    simp only [List.map_cons, List.nodup_cons] at hn
    rcases List.mem_cons.1 h with h1 | h2
    · obtain ⟨h1a, h1b⟩ := Prod.ext_iff.1 h1
      dsimp at h1a h1b
      subst h1a
      subst h1b
      simp [List.lookup]
    · have hka : a ≠ k := by
        intro he
        subst he
        exact hn.1 (List.mem_map.2 ⟨(a, b), h2, rfl⟩)
      have hbeq : (a == k) = false := beq_eq_false_iff_ne.2 hka
      simp only [List.lookup, hbeq]
      exact ih hn.2 h2

theorem lookup_filter_mem {β : Type} {rec : List (String × β)} {registry : List String}
    {c : String} (hc : c ∈ registry) :
    (rec.filter (fun p => p.1 ∈ registry)).lookup c = rec.lookup c := by
  induction rec with
  | nil => rfl
  | cons p rest ih =>
    obtain ⟨k, v⟩ := p
    by_cases hk : k ∈ registry
    · rw [show List.filter (fun p => decide (p.1 ∈ registry)) ((k, v) :: rest)
          = (k, v) :: List.filter (fun p => decide (p.1 ∈ registry)) rest from by
        simp [List.filter, hk]]
      by_cases hck : c = k
      · subst hck
        simp [List.lookup]
      · have hbeq : (c == k) = false := beq_eq_false_iff_ne.2 hck
        simp only [List.lookup, hbeq]
        exact ih
    · have hck : c ≠ k := fun he => hk (he ▸ hc)
      have hbeq : (c == k) = false := beq_eq_false_iff_ne.2 hck
      rw [show List.filter (fun p => decide (p.1 ∈ registry)) ((k, v) :: rest)
          = List.filter (fun p => decide (p.1 ∈ registry)) rest from by
        simp [List.filter, hk]]
      rw [ih]
      simp only [List.lookup, hbeq]

theorem join_wrap (a b : String) (l : List String) :
    String.join ([a] ++ l ++ [b]) = a ++ String.join l ++ b := by
  apply String.ext
  simp

theorem mem_outdated_iff (rawT vertT : List (String × Time))
    (hA : (vertT.map (fun p => p.1)).Nodup) (id : String) :
    id ∈ outdated_vert rawT vertT ↔
      ∃ rT aT, rawT.lookup id = some rT ∧ vertT.lookup id = some aT ∧ aT < rT := by
  unfold outdated_vert
  constructor
  · intro h
    rcases List.mem_map.1 h with ⟨a, ha, hid⟩
    rcases List.mem_filter.1 ha with ⟨hmem, hp⟩
    cases hr : rawT.lookup a.1 with
    | none => rw [hr] at hp; simp at hp
    | some rT =>
      rw [hr] at hp
      simp only [decide_eq_true_eq] at hp
      subst hid
      exact ⟨rT, a.2, hr, mem_lookup_of_nodup hA hmem, hp⟩
  · rintro ⟨rT, aT, hr, hv, hlt⟩
    have hm := lookup_mem hv
    apply List.mem_map.2
    refine ⟨(id, aT), List.mem_filter.2 ⟨hm, ?_⟩, rfl⟩
    simp only [hr]
    simpa using hlt

theorem due_iff (rawT vertT : List (String × Time))
    (hA : (vertT.map (fun p => p.1)).Nodup) (id : String) :
    due rawT vertT id ↔ vertT.lookup id = none ∨
      ∃ rT aT, rawT.lookup id = some rT ∧ vertT.lookup id = some aT ∧ aT < rT := by
  unfold due exists_up_to_date
  rw [lookup_eq_none_iff]
  constructor
  · intro h
    by_cases hin : id ∈ vertT.map (fun p => p.1)
    · right
      rw [← mem_outdated_iff rawT vertT hA id]
      by_contra hout
      exact h (List.mem_filter.2 ⟨hin, by simpa using hout⟩)
    · exact Or.inl hin
  · intro h hmem
    rcases List.mem_filter.1 hmem with ⟨hin, hnot⟩
    simp only [decide_eq_true_eq] at hnot
    rcases h with h1 | h2
    · exact h1 hin
    · exact hnot ((mem_outdated_iff rawT vertT hA id).2 h2)

theorem offsetStep_counts (s : CrawlState) : (offsetStep s).counts = s.counts := by
  unfold offsetStep
  split <;> rfl

theorem offsetStep_filter (s : CrawlState) :
    (offsetStep s).params.filter = s.params.filter := by
  unfold offsetStep
  split <;> rfl

theorem offsetStep_offset (s : CrawlState) :
    (offsetStep s).params.offset
      = if s.call_n > 0 then s.params.offset + (s.resp_count : Int)
        else s.params.offset := by
  unfold offsetStep
  split <;> simp_all

theorem runLoop_ne_error (wd : List (Nat × Option Nat)) (limit : Nat) :
    ∀ (pages : List Page) (s : CrawlState) (m : String),
      (runLoop wd limit s pages).2 ≠ Outcome.error m := by
  intro pages
  induction pages with
  | nil =>
    intro s m
    rw [runLoop]
    split
    · simp
    · split
      · simp
      · split
        · simp
        · simp
  | cons p rest ih =>
    intro s m
    rw [runLoop]
    split
    · simp
    · split
      · simp
      · split
        · simp
        · dsimp only
          split
          · simp
          · exact ih _ m

theorem runLoop_filter (wd : List (Nat × Option Nat)) (limit : Nat) :
    ∀ (pages : List Page) (s : CrawlState),
      (runLoop wd limit s pages).1.params.filter = s.params.filter := by
  intro pages
  induction pages with
  | nil =>
    intro s
    rw [runLoop]
    split
    · rfl
    · split
      · rfl
      · split
        · exact offsetStep_filter s
        · exact offsetStep_filter s
  | cons p rest ih =>
    intro s
    rw [runLoop]
    split
    · rfl
    · split
      · rfl
      · split
        · exact offsetStep_filter s
        · dsimp only
          split
          · exact offsetStep_filter s
          · rw [ih]
            exact offsetStep_filter s

theorem sum_eq_dropLast_add_getLast (l : List Nat) :
    l.sum = l.dropLast.sum + l.getLast?.getD 0 := by
  induction l using List.reverseRecOn with
  | nil => simp
  | append_singleton l a ih => simp [List.dropLast_concat, List.getLast?_concat]

theorem runLoop_offset_inv (wd : List (Nat × Option Nat)) (limit : Nat) :
    ∀ (pages : List Page) (s : CrawlState) (o0 : Int),
      (∀ p ∈ pages, p.count = p.data.length) →
      s.resp_count = s.counts.getLast?.getD 0 →
      s.params.offset = o0 + (s.counts.dropLast.sum : Int) →
      (s.call_n = 0 → s.counts = []) →
      (((runLoop wd limit s pages).2 ≠ Outcome.noResponse →
        (runLoop wd limit s pages).1.params.offset
          = o0 + ((runLoop wd limit s pages).1.counts.dropLast.sum : Int))
      ∧ ((runLoop wd limit s pages).2 = Outcome.exhausted →
        (runLoop wd limit s pages).1.counts.getLast?.getD 0 = 0 ∧
        (runLoop wd limit s pages).1.params.offset
          = o0 + ((runLoop wd limit s pages).1.counts.sum : Int))) := by
  intro pages
  induction pages with
  | nil =>
    intro s o0 hcons hresp hoff hcz
    rw [runLoop]
    split
    · exact ⟨fun _ => hoff, fun habs => by simp at habs⟩
    · split
      · exact ⟨fun _ => hoff, fun habs => by simp at habs⟩
      · split
        · rename_i h3
          refine ⟨fun _ => ?_, fun _ => ⟨?_, ?_⟩⟩
          · rw [offsetStep_counts, offsetStep_offset, if_pos h3.1, hoff, h3.2]
            simp
          · rw [offsetStep_counts, ← hresp]
            exact h3.2
          · rw [offsetStep_counts, offsetStep_offset, if_pos h3.1, hoff, h3.2,
              sum_eq_dropLast_add_getLast s.counts, ← hresp, h3.2]
            push_cast
            ring
        · exact ⟨fun habs => absurd rfl habs, fun habs => by simp at habs⟩
  | cons p rest ih =>
    intro s o0 hcons hresp hoff hcz
    have hoff2 : (offsetStep s).params.offset = o0 + (s.counts.sum : Int) := by
      rw [offsetStep_offset]
      by_cases hn : s.call_n > 0
      · rw [if_pos hn, hoff, hresp, sum_eq_dropLast_add_getLast s.counts]
        push_cast
        ring
      · have hz : s.counts = [] := hcz (Nat.eq_zero_of_not_pos hn)
        rw [if_neg hn, hoff, hz]
        simp
    have hc : p.count = p.data.length := hcons p (List.mem_cons_self p rest)
    rw [runLoop]
    split
    · exact ⟨fun _ => hoff, fun habs => by simp at habs⟩
    · split
      · exact ⟨fun _ => hoff, fun habs => by simp at habs⟩
      · split
        · rename_i h3
          refine ⟨fun _ => ?_, fun _ => ⟨?_, ?_⟩⟩
          · rw [offsetStep_counts, offsetStep_offset, if_pos h3.1, hoff, h3.2]
            simp
          · rw [offsetStep_counts, ← hresp]
            exact h3.2
          · rw [offsetStep_counts, offsetStep_offset, if_pos h3.1, hoff, h3.2,
              sum_eq_dropLast_add_getLast s.counts, ← hresp, h3.2]
            push_cast
            ring
        · dsimp only
          split
          · rename_i hemp
            have hc0 : p.count = 0 := by
              rw [hc, List.isEmpty_iff.1 hemp]
              rfl
            refine ⟨fun _ => ?_, fun _ => ⟨?_, ?_⟩⟩
            · dsimp only
              rw [offsetStep_counts, List.dropLast_concat, hoff2]
            · dsimp only
              rw [offsetStep_counts, List.getLast?_concat]
              exact hc0
            · dsimp only
              rw [offsetStep_counts, hoff2, List.sum_append, hc0]
              simp
          · exact ih _ o0 (fun q hq => hcons q (List.mem_cons_of_mem p hq))
              (by dsimp only; rw [offsetStep_counts, List.getLast?_concat]; rfl)
              (by dsimp only; rw [offsetStep_counts, List.dropLast_concat, hoff2])
              (by intro habs; simp at habs)

theorem int_max?_eq_some_iff {l : List Int} {a : Int} :
    l.max? = some a ↔ a ∈ l ∧ ∀ b ∈ l, b ≤ a := by
  haveI : Std.Antisymm ((· : Int) ≤ ·) := ⟨fun h1 h2 => le_antisymm h1 h2⟩
  exact List.max?_eq_some_iff (fun x => le_refl x) (fun x y => max_choice x y)
    (fun x y z => max_le_iff)

theorem cond_matches_from (other : Cond → RawRec → Prop) (t : Time) (r : RawRec) :
    cond_matches other ⟨"date.changed", CondValue.fromTime t⟩ r ↔ r.changed > t := by
  rfl

/-! ## Claim theorems -/

/-- C1: upsert through `Database.insert` is idempotent and keyed: inserting
the same batch twice leaves the raw-records table in the same state as
inserting it once; after any sequence of inserts a table whose primary keys
started without duplicates never holds two rows with the same key; and
every stored row is either an untouched old row or the full projection of
exactly one batch record — the later write fully replaces the earlier row
and field sets are never merged across writes. -/
theorem upsert_idempotent_keyed (registry : List String) (idx : Nat)
    (tbl : List (List (Option String))) (df : List (List (String × Val)))
    (h : (tbl.map (row_key idx)).Nodup) :
    Database.insert registry idx (Database.insert registry idx tbl df) df
        = Database.insert registry idx tbl df
    ∧ (∀ dfs : List (List (List (String × Val))),
        ((dfs.foldl (fun t d => Database.insert registry idx t d) tbl).map
            (row_key idx)).Nodup)
    ∧ (∀ r ∈ Database.insert registry idx tbl df,
        r ∈ tbl ∨ ∃ rec ∈ df, r = project_row registry rec)
    ∧ (∀ r ∈ Database.insert registry idx tbl df,
        row_key idx r ∈ (df.map (project_row registry)).map (row_key idx) →
          ∃ rec ∈ df, r = project_row registry rec) := by
  refine ⟨upsertBatch_idem _ _ _,
    fun dfs => foldl_insert_nodup registry idx dfs tbl h, ?_, ?_⟩
  · intro r hr
    rcases mem_upsertBatch _ _ _ hr with h1 | h2
    · exact Or.inl h1
    · rcases List.mem_map.1 h2 with ⟨rec, hrec, he⟩
      exact Or.inr ⟨rec, hrec, he.symm⟩
  · intro r hr hk
    have hm := mem_upsertBatch_of_key _ _ _ hr hk
    rcases List.mem_map.1 hm with ⟨rec, hrec, he⟩
    exact ⟨rec, hrec, he.symm⟩

/-- C1 witness: the theorem applied to a one-record batch over an empty
table keyed on the first registry column. -/
theorem upsert_idempotent_keyed_witness :
    ((([] : List (List (Option String))).map (row_key 0)).Nodup)
    ∧ Database.insert ["id", "x"] 0
        (Database.insert ["id", "x"] 0 []
          [[("id", Val.vstr ("1")), ("x", Val.vnan)]])
        [[("id", Val.vstr ("1")), ("x", Val.vnan)]]
      = Database.insert ["id", "x"] 0 []
          [[("id", Val.vstr ("1")), ("x", Val.vnan)]]
    ∧ (∀ dfs : List (List (List (String × Val))),
        ((dfs.foldl (fun t d => Database.insert ["id", "x"] 0 t d)
            ([] : List (List (Option String)))).map (row_key 0)).Nodup) :=
  ⟨by decide,
   (upsert_idempotent_keyed ["id", "x"] 0 []
     [[("id", Val.vstr ("1")), ("x", Val.vnan)]] (by decide)).1,
   (upsert_idempotent_keyed ["id", "x"] 0 []
     [[("id", Val.vstr ("1")), ("x", Val.vnan)]] (by decide)).2.1⟩

/-- C2: the staleness (due) set is exactly the ids with no annotated
document joined with the ids whose raw changed timestamp is strictly
greater than the annotation's creation timestamp; ids with equal
timestamps are not due, ids present in the raw side but absent from the
annotated side are due, and ids whose raw timestamp is not greater are not
due.  The computation (`outdated_vert` plus the batch filter) is a pure
function of its two timestamp maps. -/
theorem staleness_due_set (rawT vertT : List (String × Time)) (id : String)
    (hA : (vertT.map (fun p => p.1)).Nodup) :
    (due rawT vertT id ↔ vertT.lookup id = none ∨
        ∃ rT aT, rawT.lookup id = some rT ∧ vertT.lookup id = some aT ∧ aT < rT)
    ∧ (∀ t : Time, rawT.lookup id = some t → vertT.lookup id = some t →
        ¬ due rawT vertT id)
    ∧ ((rawT.lookup id).isSome → vertT.lookup id = none → due rawT vertT id)
    ∧ (∀ rT aT : Time, rawT.lookup id = some rT → vertT.lookup id = some aT →
        ¬ aT < rT → ¬ due rawT vertT id) := by
  refine ⟨due_iff rawT vertT hA id, ?_, ?_, ?_⟩
  · intro t hrt hvt hdue
    rcases (due_iff rawT vertT hA id).1 hdue with h1 | ⟨rT, aT, h2, h3, h4⟩
    · rw [h1] at hvt
      exact Option.noConfusion hvt
    · rw [hrt] at h2
      rw [hvt] at h3
      rw [← Option.some.inj h2, ← Option.some.inj h3] at h4
      exact lt_irrefl t h4
  · intro _ hnone
    exact (due_iff rawT vertT hA id).2 (Or.inl hnone)
  · intro rT aT hrt hvt hnlt hdue
    rcases (due_iff rawT vertT hA id).1 hdue with h1 | ⟨rT2, aT2, h2, h3, h4⟩
    · rw [h1] at hvt
      exact Option.noConfusion hvt
    · rw [hrt] at h2
      rw [hvt] at h3
      rw [← Option.some.inj h2, ← Option.some.inj h3] at h4
      exact hnlt h4

/-- C2 witness: raw record 5 changed at time 2, annotated at time 1, so id
5 is due (the spec's staleness-triggered reannotation example). -/
theorem staleness_due_set_witness :
    (([(("5" : String), (1 : Int))].map (fun p => p.1)).Nodup)
    ∧ due [(("5" : String), (2 : Int))] [(("5" : String), (1 : Int))] "5" :=
  ⟨by decide,
   ((staleness_due_set [(("5" : String), (2 : Int))] [(("5" : String), (1 : Int))]
       "5" (by decide)).1).2 (Or.inr ⟨2, 1, by decide, by decide, by decide⟩)⟩

/-- C3 counterexample: a fresh run with call limit 1 receives one page with
reported count 5 (its counts trace is [5]) yet ends with offset 0, not
c1 = 5: the claimed equality "final offset equals c1 + ... + cN" fails for
a run halted by the call limit. -/
theorem offset_final_sum_cex :
    (runLoop default_wait 1
        ⟨⟨0, ["date.changed:asc"], ⟨"AND", []⟩⟩, 0, 0, [], [], []⟩
        [⟨5, [⟨"a", 1⟩, ⟨"b", 2⟩, ⟨"c", 3⟩, ⟨"d", 4⟩, ⟨"e", 5⟩], 5⟩]).1.counts = [5]
    ∧ (runLoop default_wait 1
        ⟨⟨0, ["date.changed:asc"], ⟨"AND", []⟩⟩, 0, 0, [], [], []⟩
        [⟨5, [⟨"a", 1⟩, ⟨"b", 2⟩, ⟨"c", 3⟩, ⟨"d", 4⟩, ⟨"e", 5⟩], 5⟩]).1.params.offset
      ≠ 5 := by
  constructor
  · decide
  · decide

/-- C3 (amended): the offset is advanced by the previous page's reported
count before each call except the first, so for every fresh run over
consistent pages, any terminated run's final offset equals the initial
offset plus the sum of all received counts except the last; when the run
ends by exhaustion the last received count is 0 and the final offset also
equals the full sum c1 + ... + cN. -/
theorem offset_advance_except_last (wd : List (Nat × Option Nat)) (limit : Nat)
    (params : Params) (raw : List RawRec) (log : List LogRow) (pages : List Page)
    (hcons : ∀ p ∈ pages, p.count = p.data.length) :
    (((runLoop wd limit ⟨params, 0, 0, raw, log, []⟩ pages).2 ≠ Outcome.noResponse →
      (runLoop wd limit ⟨params, 0, 0, raw, log, []⟩ pages).1.params.offset
        = params.offset
          + (((runLoop wd limit ⟨params, 0, 0, raw, log, []⟩
                pages).1.counts.dropLast.sum : Nat) : Int))
    ∧ ((runLoop wd limit ⟨params, 0, 0, raw, log, []⟩ pages).2 = Outcome.exhausted →
      (runLoop wd limit ⟨params, 0, 0, raw, log, []⟩
          pages).1.counts.getLast?.getD 0 = 0 ∧
      (runLoop wd limit ⟨params, 0, 0, raw, log, []⟩ pages).1.params.offset
        = params.offset
          + (((runLoop wd limit ⟨params, 0, 0, raw, log, []⟩
                pages).1.counts.sum : Nat) : Int))) :=
  runLoop_offset_inv wd limit pages ⟨params, 0, 0, raw, log, []⟩ params.offset hcons
    rfl (by simp) (fun _ => rfl)

/-- C3 witness: the amended theorem applied to a run over pages with counts
[1, 0]; the run exhausts and its final offset is the full sum 1. -/
theorem offset_advance_except_last_witness :
    (∀ p ∈ [(⟨1, [⟨"a", 1⟩], 9⟩ : Page), ⟨0, [], 9⟩], p.count = p.data.length)
    ∧ (runLoop default_wait 10
        ⟨⟨0, ["date.changed:asc"], ⟨"AND", []⟩⟩, 0, 0, [], [], []⟩
        [⟨1, [⟨"a", 1⟩], 9⟩, ⟨0, [], 9⟩]).1.counts.getLast?.getD 0 = 0
    ∧ (runLoop default_wait 10
        ⟨⟨0, ["date.changed:asc"], ⟨"AND", []⟩⟩, 0, 0, [], [], []⟩
        [⟨1, [⟨"a", 1⟩], 9⟩, ⟨0, [], 9⟩]).1.params.offset
      = (0 : Int) + (((runLoop default_wait 10
            ⟨⟨0, ["date.changed:asc"], ⟨"AND", []⟩⟩, 0, 0, [], [], []⟩
            [⟨1, [⟨"a", 1⟩], 9⟩, ⟨0, [], 9⟩]).1.counts.sum : Nat) : Int) :=
  ⟨by decide,
   ((offset_advance_except_last default_wait 10
      ⟨0, ["date.changed:asc"], ⟨"AND", []⟩⟩ [] []
      [⟨1, [⟨"a", 1⟩], 9⟩, ⟨0, [], 9⟩] (by decide)).2 (by decide)).1,
   ((offset_advance_except_last default_wait 10
      ⟨0, ["date.changed:asc"], ⟨"AND", []⟩⟩ [] []
      [⟨1, [⟨"a", 1⟩], 9⟩, ⟨0, [], 9⟩] (by decide)).2 (by decide)).2⟩

/-- C4: for every crawl state below its call limit whose quota bucket still
allows a call, receiving a page whose reported result count is zero (empty
data) ends the crawl in the EXHAUSTED terminal outcome — never in an error
— regardless of the current offset, including an offset-zero first page. -/
theorem zero_count_page_exhausts (wd : List (Nat × Option Nat)) (limit : Nat)
    (s : CrawlState) (rest : List Page) (tc : Nat) (hlim : s.call_n < limit)
    (hq : quota_wait wd s.call_n ≠ none) :
    (runLoop wd limit s (⟨0, [], tc⟩ :: rest)).2 = Outcome.exhausted := by
  rw [runLoop]
  rw [if_neg (by omega), if_neg hq]
  by_cases h3 : s.call_n > 0 ∧ s.resp_count = 0
  · rw [if_pos h3]
  · rw [if_neg h3]
    rfl

/-- C4 witness: a first page with count zero at offset 3 ends in EXHAUSTED. -/
theorem zero_count_page_exhausts_witness :
    ((0 : Nat) < 5) ∧ quota_wait default_wait 0 ≠ none
    ∧ (runLoop default_wait 5
        ⟨⟨3, [], ⟨"AND", []⟩⟩, 0, 0, [], [], []⟩ [⟨0, [], 0⟩]).2
      = Outcome.exhausted :=
  ⟨by decide, by decide,
   zero_count_page_exhausts default_wait 5
     ⟨⟨3, [], ⟨"AND", []⟩⟩, 0, 0, [], [], []⟩ [] 0 (by decide) (by decide)⟩

/-- C5 counterexample: in the fresh incremental run over empty storage with
page counts [2, 0], exactly one CallRecord is stored, not two: the second
call's insert raises on the empty page before `_insert_log` runs. -/
theorem fresh_run_two_logs_cex :
    (newRun default_wait 1000 ⟨0, ["date.changed:asc"], ⟨"AND", []⟩⟩ [] []
        [⟨2, [⟨"1", 10⟩, ⟨"2", 20⟩], 5⟩, ⟨0, [], 5⟩]).1.log.length ≠ 2 := by
  decide

/-- C5 (amended): a fresh incremental run over empty storage receiving
pages with counts [2, 0] stores exactly 2 raw records, writes exactly one
CallRecord — the zero-count call aborts during insert before its log entry
is written — and ends in the EXHAUSTED state with no error. -/
theorem fresh_run_scenario :
    (newRun default_wait 1000 ⟨0, ["date.changed:asc"], ⟨"AND", []⟩⟩ [] []
        [⟨2, [⟨"1", 10⟩, ⟨"2", 20⟩], 5⟩, ⟨0, [], 5⟩]).1.raw.length = 2
    ∧ (newRun default_wait 1000 ⟨0, ["date.changed:asc"], ⟨"AND", []⟩⟩ [] []
        [⟨2, [⟨"1", 10⟩, ⟨"2", 20⟩], 5⟩, ⟨0, [], 5⟩]).1.log.length = 1
    ∧ (newRun default_wait 1000 ⟨0, ["date.changed:asc"], ⟨"AND", []⟩⟩ [] []
        [⟨2, [⟨"1", 10⟩, ⟨"2", 20⟩], 5⟩, ⟨0, [], 5⟩]).2 = Outcome.exhausted := by
  refine ⟨by decide, by decide, by decide⟩

/-- C6: an INCREMENTAL run with the correct sort over non-empty storage
reads the maximum stored changed timestamp and rewrites the request filter
to the original conditions plus a date.changed condition from that maximum
under AND, so that a record matching the run's filter (under the
spec-modelled condition semantics) has a changed timestamp strictly
greater than every stored one; over empty storage the run equals a FULL
run (`all`) from offset 0 with the filter untouched. -/
theorem incremental_filter_latest (wd : List (Nat × Option Nat)) (limit : Nat)
    (original : Params) (raw : List RawRec) (log : List LogRow) (pages : List Page)
    (hsort : original.sort = ["date.changed:asc"]) :
    (raw = [] →
      newRun wd limit original raw log pages
        = allRun wd limit ⟨{ original with offset := 0 }, 0, 0, raw, log, []⟩ pages)
    ∧ (raw ≠ [] →
      ∃ latest, (raw.map (fun r => r.changed)).max? = some latest ∧
        latest ∈ raw.map (fun r => r.changed) ∧
        (∀ t ∈ raw.map (fun r => r.changed), t ≤ latest) ∧
        (newRun wd limit original raw log pages).1.params.filter
          = ⟨"AND", original.filter.conditions
              ++ [⟨"date.changed", CondValue.fromTime latest⟩]⟩ ∧
        (∀ (other : Cond → RawRec → Prop) (r : RawRec),
          filter_matches other
              (newRun wd limit original raw log pages).1.params.filter r →
            r.changed > latest)) := by
  have hns : ¬ original.sort ≠ ["date.changed:asc"] := by simp [hsort]
  constructor
  · intro hraw
    subst hraw
    rw [newRun, if_neg hns]
    rfl
  · intro hraw
    have hmapne : raw.map (fun r => r.changed) ≠ [] := by simpa using hraw
    obtain ⟨latest, hmax⟩ :
        ∃ latest, (raw.map (fun r => r.changed)).max? = some latest := by
      cases hm : (raw.map (fun r => r.changed)).max? with
      | none => exact absurd (List.max?_eq_none_iff.1 hm) hmapne
      | some x => exact ⟨x, rfl⟩
    obtain ⟨hmem, hle⟩ := int_max?_eq_some_iff.1 hmax
    have hfil : (newRun wd limit original raw log pages).1.params.filter
        = ⟨"AND", original.filter.conditions
            ++ [⟨"date.changed", CondValue.fromTime latest⟩]⟩ := by
      rw [newRun, if_neg hns]
      unfold allRun
      rw [runLoop_filter]
      dsimp only
      unfold update_filter
      rw [hmax]
    refine ⟨latest, hmax, hmem, hle, hfil, ?_⟩
    intro other r hmatch
    rw [hfil] at hmatch
    unfold filter_matches at hmatch
    rw [if_pos rfl] at hmatch
    have hlast := hmatch ⟨"date.changed", CondValue.fromTime latest⟩ (by simp)
    exact (cond_matches_from other latest r).1 hlast

/-- C6 witness: over stored changed timestamps [5, 9], the run's filter
appends the date.changed condition from 9 to the caller's conditions, and
a record matching it has changed timestamp above 9. -/
theorem incremental_filter_latest_witness :
    ((⟨0, ["date.changed:asc"], ⟨"AND", [⟨"x", CondValue.scalar ("y")⟩]⟩⟩ :
        Params).sort = ["date.changed:asc"])
    ∧ ∃ latest,
        (([⟨"1", 5⟩, ⟨"2", 9⟩] : List RawRec).map (fun r => r.changed)).max?
          = some latest ∧
        latest ∈ ([⟨"1", 5⟩, ⟨"2", 9⟩] : List RawRec).map (fun r => r.changed) ∧
        (∀ t ∈ ([⟨"1", 5⟩, ⟨"2", 9⟩] : List RawRec).map (fun r => r.changed),
          t ≤ latest) ∧
        (newRun default_wait 3
            ⟨0, ["date.changed:asc"], ⟨"AND", [⟨"x", CondValue.scalar ("y")⟩]⟩⟩
            [⟨"1", 5⟩, ⟨"2", 9⟩] [] []).1.params.filter
          = ⟨"AND", (⟨"AND", [⟨"x", CondValue.scalar ("y")⟩]⟩ : Filter).conditions
              ++ [⟨"date.changed", CondValue.fromTime latest⟩]⟩ ∧
        (∀ (other : Cond → RawRec → Prop) (r : RawRec),
          filter_matches other
              (newRun default_wait 3
                ⟨0, ["date.changed:asc"], ⟨"AND", [⟨"x", CondValue.scalar ("y")⟩]⟩⟩
                [⟨"1", 5⟩, ⟨"2", 9⟩] [] []).1.params.filter r →
            r.changed > latest) :=
  ⟨rfl,
   (incremental_filter_latest default_wait 3
      ⟨0, ["date.changed:asc"], ⟨"AND", [⟨"x", CondValue.scalar ("y")⟩]⟩⟩
      [⟨"1", 5⟩, ⟨"2", 9⟩] [] [] rfl).2 (by decide)⟩

/-- C7: starting an INCREMENTAL run ends in the configuration ValueError if
and only if the declared sort is not ["date.changed:asc"]; in that case the
error is returned immediately with the database untouched, no page
consumed and no call issued (counts trace empty), and it is not retried. -/
theorem incremental_bad_sort_fails_fast (wd : List (Nat × Option Nat))
    (limit : Nat) (original : Params) (raw : List RawRec) (log : List LogRow)
    (pages : List Page) :
    ((newRun wd limit original raw log pages).2 = Outcome.error sort_err_msg ↔
      original.sort ≠ ["date.changed:asc"])
    ∧ (original.sort ≠ ["date.changed:asc"] →
        newRun wd limit original raw log pages
          = (⟨{ original with offset := 0 }, 0, 0, raw, log, []⟩,
             Outcome.error sort_err_msg)) := by
  by_cases hs : original.sort ≠ ["date.changed:asc"]
  · constructor
    · rw [newRun, if_pos hs]
      exact ⟨fun _ => hs, fun _ => rfl⟩
    · intro _
      rw [newRun, if_pos hs]
  · constructor
    · rw [newRun, if_neg hs]
      constructor
      · intro habs
        exact absurd habs (runLoop_ne_error wd limit pages _ sort_err_msg)
      · intro habs
        exact absurd habs hs
    · intro habs
      exact absurd habs hs

/-- C7 witness: a run declared with an ascending date.created sort fails
fast with the configuration error and leaves the state untouched. -/
theorem incremental_bad_sort_fails_fast_witness :
    (newRun default_wait 3 ⟨4, ["date.created:asc"], ⟨"AND", []⟩⟩ [] [] []).2
        = Outcome.error sort_err_msg
    ∧ newRun default_wait 3 ⟨4, ["date.created:asc"], ⟨"AND", []⟩⟩ [] [] []
        = (⟨⟨0, ["date.created:asc"], ⟨"AND", []⟩⟩, 0, 0, [], [], []⟩,
           Outcome.error sort_err_msg) :=
  ⟨((incremental_bad_sort_fails_fast default_wait 3
      ⟨4, ["date.created:asc"], ⟨"AND", []⟩⟩ [] [] []).1).2 (by decide),
   (incremental_bad_sort_fails_fast default_wait 3
      ⟨4, ["date.created:asc"], ⟨"AND", []⟩⟩ [] [] []).2 (by decide)⟩

/-- C8: in a batch write of annotated documents, every document whose
formatted content has zero length is warned about (its id is logged) and
excluded from the write, the remaining documents are all kept and their
ids written, and — provided the stored table had no empty documents — no
stored annotated document is ever empty.  The whole step is a total
function: an empty-content document is never a fatal error. -/
theorem empty_vert_excluded (tbl df : List VertRow)
    (h : ∀ t ∈ tbl, t.vert.length ≠ 0) :
    (∀ r ∈ df, r.vert.length = 0 →
        r.id ∈ (drop_empty_vert df).1 ∧ r ∉ (drop_empty_vert df).2)
    ∧ (∀ r ∈ df, r.vert.length ≠ 0 → r ∈ (drop_empty_vert df).2)
    ∧ (∀ t ∈ batch_run_insert tbl df, t.vert.length ≠ 0)
    ∧ (∀ r ∈ df, r.vert.length ≠ 0 →
        r.id ∈ (batch_run_insert tbl df).map (fun t => t.id)) := by
  refine ⟨?_, ?_, ?_, ?_⟩
  · intro r hr hz
    constructor
    · exact List.mem_map_of_mem _ (List.mem_filter.2 ⟨hr, by simp [hz]⟩)
    · intro hmem
      have h2 := (List.mem_filter.1 hmem).2
      simp [hz] at h2
  · intro r hr hnz
    exact List.mem_filter.2 ⟨hr, by simp [Nat.pos_of_ne_zero hnz]⟩
  · intro t ht
    rcases mem_upsertBatch _ _ _ ht with h1 | h2
    · exact h t h1
    · have h3 := (List.mem_filter.1 h2).2
      simp only [decide_eq_true_eq] at h3
      exact Nat.pos_iff_ne_zero.mp h3
  · intro r hr hnz
    apply key_mem_upsertBatch
    exact List.mem_map_of_mem _ (List.mem_filter.2 ⟨hr, by simp [Nat.pos_of_ne_zero hnz]⟩)

/-- C8 witness: in a batch with one empty and one non-empty document, the
empty one is warned and excluded while nothing stored is empty. -/
theorem empty_vert_excluded_witness :
    (∀ t ∈ ([] : List VertRow), t.vert.length ≠ 0)
    ∧ (∀ r ∈ [(⟨"1", ""⟩ : VertRow), ⟨"2", "a\n"⟩], r.vert.length = 0 →
        r.id ∈ (drop_empty_vert [(⟨"1", ""⟩ : VertRow), ⟨"2", "a\n"⟩]).1 ∧
        r ∉ (drop_empty_vert [(⟨"1", ""⟩ : VertRow), ⟨"2", "a\n"⟩]).2)
    ∧ (∀ t ∈ batch_run_insert [] [(⟨"1", ""⟩ : VertRow), ⟨"2", "a\n"⟩],
        t.vert.length ≠ 0) :=
  ⟨by decide,
   (empty_vert_excluded [] [(⟨"1", ""⟩ : VertRow), ⟨"2", "a\n"⟩] (by decide)).1,
   (empty_vert_excluded [] [(⟨"1", ""⟩ : VertRow), ⟨"2", "a\n"⟩] (by decide)).2.2.1⟩

/-- C9: vertical formatting is deterministic: every formatted sentence is
the start marker line, the word lines, and the end marker line; and the
word "Cats" tagged NNS with lemma "cat", under a tagset giving NNS the
lempos suffix -n, formats to exactly the tab-separated newline-terminated
line Cats TAB NNS TAB cat-n. -/
theorem vertical_format_deterministic :
    (∀ (tagset : String → String) (sent : List Word), ∃ mid,
        make_sentence tagset sent = "<s>\n" ++ mid ++ "</s>\n")
    ∧ make_line (fun t => if t = "NNS" then ("-n") else (""))
        ⟨"Cats", "NNS", some ("cat")⟩ = "Cats\tNNS\tcat-n\n" := by
  constructor
  · intro tagset sent
    exact ⟨String.join (make_lines tagset sent), join_wrap _ _ _⟩
  · decide

/-- C10: `Database.insert` writes rows shaped exactly by the table's
registry: every stored row has one cell per registered column, the cell at
position i is the converted value of the column at position i of the
registry (registry order), input columns outside the registry never
influence the written row, and every stored cell is NULL or a string —
nan-like values become NULL and all others their string form, whatever the
input datatype. -/
theorem insert_registry_projection (registry : List String) (idx : Nat)
    (tbl : List (List (Option String))) (df : List (List (String × Val)))
    (h : ∀ r ∈ tbl, r.length = registry.length) :
    (∀ r ∈ Database.insert registry idx tbl df, r.length = registry.length)
    ∧ (∀ rec : List (String × Val),
        project_row registry (rec.filter (fun p => p.1 ∈ registry))
          = project_row registry rec)
    ∧ (∀ (rec : List (String × Val)) (i : Nat),
        (project_row registry rec)[i]?
          = (registry[i]?).map (fun c => prepare_cell ((rec.lookup c).getD .vnan)))
    ∧ (∀ v : Val, prepare_cell v = none ∨ ∃ s, prepare_cell v = some s) := by
  refine ⟨?_, ?_, ?_, ?_⟩
  · intro r hr
    rcases mem_upsertBatch _ _ _ hr with h1 | h2
    · exact h r h1
    · rcases List.mem_map.1 h2 with ⟨rec, _, he⟩
      rw [← he]
      exact List.length_map registry _
  · intro rec
    unfold project_row
    apply List.map_congr_left
    intro c hc
    rw [lookup_filter_mem hc]
  · intro rec i
    unfold project_row
    exact List.getElem?_map ..
  · intro v
    by_cases hv : astype_str v = "nan"
    · exact Or.inl (by simp [prepare_cell, nan_to_none, hv])
    · exact Or.inr ⟨astype_str v, by simp [prepare_cell, nan_to_none, hv]⟩

/-- C10 witness: inserting one record with a string id and a nan field into
an empty two-column table yields rows of exactly the registry's width, and
every converted cell is NULL or a string. -/
theorem insert_registry_projection_witness :
    (∀ r ∈ ([] : List (List (Option String))),
        r.length = (["id", "x"] : List String).length)
    ∧ (∀ r ∈ Database.insert ["id", "x"] 0 []
          [[("id", Val.vstr ("1")), ("x", Val.vnan)]],
        r.length = (["id", "x"] : List String).length)
    ∧ (∀ v : Val, prepare_cell v = none ∨ ∃ s, prepare_cell v = some s) :=
  ⟨by decide,
   (insert_registry_projection ["id", "x"] 0 []
      [[("id", Val.vstr ("1")), ("x", Val.vnan)]] (by decide)).1,
   (insert_registry_projection ["id", "x"] 0 []
      [[("id", Val.vstr ("1")), ("x", Val.vnan)]] (by decide)).2.2.2⟩

end Corpusama
